import Mathlib

/-!
# Verification of the code-viz analysis core

A shallow embedding of the dead-code analysis engine of the `code-viz`
repository (crates `code-viz-dead-code`, `code-viz-core`, `code-viz-cli`),
together with theorems settling the specification claims about it.

Modelling conventions:
* Rust `HashMap`/`AHashMap` values become association lists (`List (κ × ν)`)
  queried with `List.lookup`; only key-membership and lookup results matter
  to the claims, never iteration order.
* Rust `HashSet` values become `List` with membership.
* Machine integers become `Nat`/`Int`; the only arithmetic of interest
  (confidence scores in `i16`) is far from any overflow boundary.
* Strings are manipulated through their character lists; Rust's byte
  positions coincide with character positions on the ASCII inputs the
  claims are about, and `char::to_lowercase` is modelled on ASCII letters.
* Effectful inputs (file mtimes, the system clock, the git repository)
  are passed explicitly: the file system is an association list from path
  to mtime seconds, and the "recently modified within 30 days" probe of
  the confidence scorer is an explicit boolean oracle.
-/

namespace CodeViz

/-! ## Rust string primitives (modelled on character lists) -/

/-- Rust `char::is_whitespace`, restricted to the ASCII whitespace that the
claims exercise. -/
def rustIsWhitespace (c : Char) : Bool :=
  c = ' ' ∨ c = '\t' ∨ c = '\n' ∨ c = '\r'

/-- Rust `char` ASCII lowercasing, the fragment of `to_lowercase` used by the
symbol names in the claims. -/
def rustCharToLower (c : Char) : Char :=
  if 'A' ≤ c ∧ c ≤ 'Z' then Char.ofNat (c.toNat + 32) else c

/-- Rust `str::to_lowercase` (ASCII fragment). -/
def rustToLower (s : String) : String :=
  ⟨s.data.map rustCharToLower⟩

/-- Rust `str::starts_with`. -/
def rustStartsWith (s p : String) : Bool :=
  p.data.isPrefixOf s.data

/-- Rust `str::ends_with`. -/
def rustEndsWith (s p : String) : Bool :=
  p.data.isSuffixOf s.data

/-- Rust `str::contains` (substring containment). -/
def rustContains (s p : String) : Bool :=
  s.data.tails.any (fun t => p.data.isPrefixOf t)

/-! ## Data model (`code-viz-dead-code/src/models.rs`) -/

/-- `SymbolId` — unique identifier for a symbol. -/
abbrev SymbolId := String

/-- `SymbolKind` — type of symbol. -/
inductive SymbolKind where
  | Function
  | ArrowFunction
  | Class
  | Method
  | Variable
deriving DecidableEq, Repr

/-- `Symbol` — a symbol extracted from source code. File paths are modelled
as strings. -/
structure Symbol where
  id : SymbolId
  name : String
  kind : SymbolKind
  path : String
  line_start : Nat
  line_end : Nat
  is_exported : Bool
  is_test : Bool
deriving DecidableEq, Repr

/-- `SymbolGraph` (`symbol_graph/mod.rs`) — the three hash maps become
association lists. -/
structure SymbolGraph where
  symbols : List (SymbolId × Symbol)
  imports : List (SymbolId × List SymbolId)
  exports : List (String × List SymbolId)
deriving DecidableEq, Repr

/-- Dependencies of a symbol: `graph.imports.get(&id)` with a missing entry
meaning no dependencies (the Rust code skips the `if let`). -/
def depsOf (g : SymbolGraph) (a : SymbolId) : List SymbolId :=
  (g.imports.lookup a).getD []

/-- `graph.symbols.contains_key(&id)`. -/
def presentIn (g : SymbolGraph) (e : SymbolId) : Bool :=
  (g.symbols.lookup e).isSome

/-! ## Reachability (`reachability.rs`) -/

/-- `ReachabilityError`. -/
inductive ReachabilityError where
  | InvalidSymbolId (id : SymbolId)
  | NoEntryPoints
deriving DecidableEq, Repr

/-- One `imports` edge: `b` is listed among the dependencies of `a`. -/
def importsEdge (g : SymbolGraph) (a b : SymbolId) : Prop :=
  b ∈ depsOf g a

/-- A path of `imports` edges (including the empty path). -/
def Reaches (g : SymbolGraph) : SymbolId → SymbolId → Prop :=
  Relation.ReflTransGen (importsEdge g)

/-- Every id the traversal can ever touch: the keys of `symbols` plus every
id occurring in an `imports` dependency list. Used only for the fuel bound. -/
def idUniverse (g : SymbolGraph) : Finset SymbolId :=
  (g.symbols.map Prod.fst ++ (g.imports.map Prod.snd).flatten).toFinset

/-- Total number of dependency entries in `imports`; bounds how many pushes
a single visit can perform. -/
def totalDeps (g : SymbolGraph) : Nat :=
  ((g.imports.map Prod.snd).flatten).length

/-- Fuel that provably suffices for the DFS worklist loop to drain its stack
(see `dfsAux_some`). -/
def fuelBound (g : SymbolGraph) (visited : List SymbolId) : Nat :=
  ((idUniverse g).filter (fun x => x ∉ visited)).card * (totalDeps g + 1) + 2

/-- The iterative DFS loop of `ReachabilityAnalyzer::dfs`, lines 97–114:
pop the top of the stack, skip it when already visited, otherwise mark it
visited and push its not-yet-visited dependencies. The list plays the Rust
`Vec` stack with its head as the top (so pushing `d₁, d₂, …` in order leaves
the last dependency on top, as `Vec::push`/`Vec::pop` do). The `fuel`
argument makes the loop structurally recursive; `none` models a loop that
would still be running, and `dfsAux_some` shows `fuelBound` rules it out. -/
def dfsAux (g : SymbolGraph) : Nat → List SymbolId → List SymbolId → Option (List SymbolId)
  | 0, _, _ => none
  | _ + 1, visited, [] => some visited
  | fuel + 1, visited, current :: rest =>
    if current ∈ visited then
      dfsAux g fuel visited rest
    else
      let visited' := current :: visited
      let deps := depsOf g current
      dfsAux g fuel visited' ((deps.filter (fun d => d ∉ visited')).reverse ++ rest)

/-- `ReachabilityAnalyzer::dfs`: return unchanged when the entry is not a key
of `symbols`, otherwise run the worklist loop seeded with the entry. -/
def dfs (g : SymbolGraph) (visited : List SymbolId) (symbol_id : SymbolId) :
    Option (List SymbolId) :=
  if presentIn g symbol_id then
    dfsAux g (fuelBound g visited) visited [symbol_id]
  else
    some visited

/-- The loop of `analyze` (lines 67–69): fold `dfs` over the entry points,
starting from the cleared visited set. -/
def runDfs (g : SymbolGraph) (entry_points : List SymbolId) : Option (List SymbolId) :=
  entry_points.foldlM (fun visited e => dfs g visited e) []

/-- `ReachabilityAnalyzer::analyze`: error on empty entry points, otherwise
clear the visited set and DFS from each entry point in turn. The inner
`Option` carries the (never realised) fuel-exhaustion case of `dfsAux`. -/
def analyze (g : SymbolGraph) (entry_points : List SymbolId) :
    Except ReachabilityError (Option (List SymbolId)) :=
  if entry_points.isEmpty then
    .error .NoEntryPoints
  else
    .ok (runDfs g entry_points)

/-- `identify_dead_code`: all symbol values whose key is not reachable. -/
def identify_dead_code (g : SymbolGraph) (reachable : List SymbolId) : List Symbol :=
  (g.symbols.filter (fun p => p.1 ∉ reachable)).map Prod.snd

/-! ### Reachability lemmas -/

theorem lookup_mem {α β : Type} [BEq α] [LawfulBEq α] {l : List (α × β)} {a : α} {b : β}
    (h : l.lookup a = some b) : (a, b) ∈ l := by
  induction l with
  | nil => simp [List.lookup] at h
  | cons p t ih =>
    obtain ⟨k, v⟩ := p
    simp only [List.lookup] at h
    split at h
    · next heq =>
        cases h
        exact (eq_of_beq heq) ▸ List.mem_cons_self _ _
    · next => exact List.mem_cons_of_mem _ (ih h)

theorem depsOf_mem_universe {g : SymbolGraph} {a d : SymbolId}
    (h : d ∈ depsOf g a) : d ∈ idUniverse g := by
  unfold depsOf at h
  cases hl : g.imports.lookup a with
  | none => rw [hl] at h; simp at h
  | some v =>
    rw [hl] at h
    simp only [Option.getD_some] at h
    have hv : v ∈ g.imports.map Prod.snd := List.mem_map_of_mem _ (lookup_mem hl)
    have : d ∈ (g.imports.map Prod.snd).flatten := List.mem_flatten.mpr ⟨v, hv, h⟩
    unfold idUniverse
    simp only [List.mem_toFinset, List.mem_append]
    exact Or.inr this

theorem depsOf_length_le (g : SymbolGraph) (a : SymbolId) :
    (depsOf g a).length ≤ totalDeps g := by
  unfold depsOf totalDeps
  cases hl : g.imports.lookup a with
  | none => simp
  | some v =>
    simp only [Option.getD_some]
    have hv : v.length ∈ (g.imports.map Prod.snd).map List.length :=
      List.mem_map_of_mem _ (List.mem_map_of_mem _ (lookup_mem hl))
    rw [List.length_flatten]
    exact List.single_le_sum (fun _ _ => Nat.zero_le _) _ hv

theorem present_mem_universe {g : SymbolGraph} {e : SymbolId}
    (h : presentIn g e = true) : e ∈ idUniverse g := by
  unfold presentIn at h
  rw [Option.isSome_iff_exists] at h
  obtain ⟨s, hs⟩ := h
  have : e ∈ g.symbols.map Prod.fst := List.mem_map_of_mem _ (lookup_mem hs)
  unfold idUniverse
  simp only [List.mem_toFinset, List.mem_append]
  exact Or.inl this

/-- The fuel bound suffices: with `fuelBound` fuel the worklist loop always
drains its stack — the engine terminates on every finite graph, cycles
included. -/
theorem dfsAux_some (g : SymbolGraph) :
    ∀ (fuel : Nat) (visited stack : List SymbolId),
      (∀ x ∈ stack, x ∈ idUniverse g) →
      ((idUniverse g).filter (fun x => x ∉ visited)).card * (totalDeps g + 1)
        + stack.length < fuel →
      (dfsAux g fuel visited stack).isSome := by
  intro fuel
  induction fuel with
  | zero => intro visited stack _ hlt; omega
  | succ n ih =>
    intro visited stack hsub hlt
    match stack with
    | [] => simp [dfsAux]
    | current :: rest =>
      rw [dfsAux]
      by_cases hc : current ∈ visited
      · simp only [hc, if_true]
        apply ih
        · intro x hx; exact hsub x (List.mem_cons_of_mem _ hx)
        · simp only [List.length_cons] at hlt; omega
      · simp only [hc, if_false]
        have hcu : current ∈ idUniverse g := hsub current (List.mem_cons_self _ _)
        have hcard :
            ((idUniverse g).filter (fun x => x ∉ current :: visited)).card
              < ((idUniverse g).filter (fun x => x ∉ visited)).card := by
          apply Finset.card_lt_card
          have hsubf : (idUniverse g).filter (fun x => x ∉ current :: visited)
              ⊆ (idUniverse g).filter (fun x => x ∉ visited) := by
            intro x hx
            rw [Finset.mem_filter] at hx ⊢
            exact ⟨hx.1, fun hm => hx.2 (List.mem_cons_of_mem _ hm)⟩
          rw [Finset.ssubset_iff_of_subset hsubf]
          exact ⟨current, Finset.mem_filter.mpr ⟨hcu, hc⟩,
            fun hmem => ((Finset.mem_filter.mp hmem).2 (List.mem_cons_self _ _))⟩
        apply ih
        · intro x hx
          rcases List.mem_append.mp hx with hx | hx
          · exact depsOf_mem_universe (List.mem_of_mem_filter (List.mem_reverse.mp hx))
          · exact hsub x (List.mem_cons_of_mem _ hx)
        · have hlen : ((depsOf g current).filter
              (fun d => d ∉ current :: visited)).reverse.length ≤ totalDeps g := by
            rw [List.length_reverse]
            exact le_trans (List.length_filter_le _ _) (depsOf_length_le g current)
          rw [List.length_append]
          set A := ((idUniverse g).filter (fun x => x ∉ current :: visited)).card
          set B := ((idUniverse g).filter (fun x => x ∉ visited)).card
          set T := totalDeps g
          have hmul : (A + 1) * (T + 1) ≤ B * (T + 1) :=
            Nat.mul_le_mul_right _ hcard
          have hexp : (A + 1) * (T + 1) = A * (T + 1) + T + 1 := by ring
          simp only [List.length_cons] at hlt
          omega

/-- The DFS loop only grows its visited set, and everything on the stack ends
up visited. -/
theorem dfsAux_grow (g : SymbolGraph) :
    ∀ (fuel : Nat) (visited stack out : List SymbolId),
      dfsAux g fuel visited stack = some out →
      (∀ x ∈ visited, x ∈ out) ∧ (∀ x ∈ stack, x ∈ out) := by
  intro fuel
  induction fuel with
  | zero => intro visited stack out h; simp [dfsAux] at h
  | succ n ih =>
    intro visited stack out h
    match stack with
    | [] =>
      rw [dfsAux] at h
      cases h
      exact ⟨fun x hx => hx, by simp⟩
    | current :: rest =>
      rw [dfsAux] at h
      by_cases hc : current ∈ visited
      · simp only [hc, if_true] at h
        obtain ⟨h1, h2⟩ := ih _ _ _ h
        exact ⟨h1, fun x hx => by
          rcases List.mem_cons.mp hx with hx | hx
          · exact hx ▸ h1 _ hc
          · exact h2 _ hx⟩
      · simp only [hc, if_false] at h
        obtain ⟨h1, h2⟩ := ih _ _ _ h
        refine ⟨fun x hx => h1 _ (List.mem_cons_of_mem _ hx), fun x hx => ?_⟩
        rcases List.mem_cons.mp hx with hx | hx
        · exact hx ▸ h1 _ (List.mem_cons_self _ _)
        · exact h2 _ (List.mem_append_right _ hx)

/-- Soundness of the loop: every id it marks is already visited or lies at
the end of an `imports` path from some stack element. -/
theorem dfsAux_sound (g : SymbolGraph) :
    ∀ (fuel : Nat) (visited stack out : List SymbolId),
      dfsAux g fuel visited stack = some out →
      ∀ x ∈ out, x ∈ visited ∨ ∃ s ∈ stack, Reaches g s x := by
  intro fuel
  induction fuel with
  | zero => intro visited stack out h; simp [dfsAux] at h
  | succ n ih =>
    intro visited stack out h x hx
    match stack with
    | [] =>
      rw [dfsAux] at h
      cases h
      exact Or.inl hx
    | current :: rest =>
      rw [dfsAux] at h
      by_cases hc : current ∈ visited
      · simp only [hc, if_true] at h
        rcases ih _ _ _ h x hx with h' | ⟨s, hs, hr⟩
        · exact Or.inl h'
        · exact Or.inr ⟨s, List.mem_cons_of_mem _ hs, hr⟩
      · simp only [hc, if_false] at h
        rcases ih _ _ _ h x hx with h' | ⟨s, hs, hr⟩
        · rcases List.mem_cons.mp h' with h' | h'
          · exact Or.inr ⟨current, (List.mem_cons_self _ _), h' ▸ Relation.ReflTransGen.refl⟩
          · exact Or.inl h'
        · rcases List.mem_append.mp hs with hs | hs
          · have hd : s ∈ depsOf g current :=
              List.mem_of_mem_filter (List.mem_reverse.mp hs)
            exact Or.inr ⟨current, (List.mem_cons_self _ _), Relation.ReflTransGen.head hd hr⟩
          · exact Or.inr ⟨s, List.mem_cons_of_mem _ hs, hr⟩

/-- Invariant used for completeness: every dependency of a visited node is
either visited or still pending on the stack. -/
def DepsClosedUnder (g : SymbolGraph) (w stack : List SymbolId) : Prop :=
  ∀ n ∈ w, ∀ d ∈ depsOf g n, d ∈ w ∨ d ∈ stack

/-- A fully processed visited set: closed under `imports` dependencies. -/
def DepsClosed (g : SymbolGraph) (w : List SymbolId) : Prop :=
  ∀ n ∈ w, ∀ d ∈ depsOf g n, d ∈ w

/-- The loop's output is closed under dependencies. -/
theorem dfsAux_closed (g : SymbolGraph) :
    ∀ (fuel : Nat) (visited stack out : List SymbolId),
      dfsAux g fuel visited stack = some out →
      DepsClosedUnder g visited stack →
      DepsClosed g out := by
  intro fuel
  induction fuel with
  | zero => intro visited stack out h; simp [dfsAux] at h
  | succ n ih =>
    intro visited stack out h hinv
    match stack with
    | [] =>
      rw [dfsAux] at h
      cases h
      intro m hm d hd
      rcases hinv m hm d hd with h' | h'
      · exact h'
      · simp at h'
    | current :: rest =>
      rw [dfsAux] at h
      by_cases hc : current ∈ visited
      · simp only [hc, if_true] at h
        refine ih _ _ _ h (fun m hm d hd => ?_)
        rcases hinv m hm d hd with h' | h'
        · exact Or.inl h'
        · rcases List.mem_cons.mp h' with h' | h'
          · exact Or.inl (h' ▸ hc)
          · exact Or.inr h'
      · simp only [hc, if_false] at h
        refine ih _ _ _ h (fun m hm d hd => ?_)
        rcases List.mem_cons.mp hm with hm | hm
        · subst hm
          by_cases hdv : d ∈ m :: visited
          · exact Or.inl hdv
          · refine Or.inr (List.mem_append_left _ (List.mem_reverse.mpr ?_))
            simp only [List.mem_filter, decide_eq_true_eq]
            exact ⟨hd, hdv⟩
        · rcases hinv m hm d hd with h' | h'
          · exact Or.inl (List.mem_cons_of_mem _ h')
          · rcases List.mem_cons.mp h' with h' | h'
            · exact Or.inl (h' ▸ List.mem_cons_self _ _)
            · exact Or.inr (List.mem_append_right _ h')

/-- A dependency-closed set absorbs every `imports` path starting inside it. -/
theorem mem_of_reaches (g : SymbolGraph) {w : List SymbolId}
    (hc : DepsClosed g w) {s x : SymbolId} (hs : s ∈ w) (h : Reaches g s x) :
    x ∈ w := by
  induction h with
  | refl => exact hs
  | tail _ hbc ih => exact hc _ ih _ hbc

/-- Full specification of one `dfs` call. -/
theorem dfs_spec (g : SymbolGraph) (visited : List SymbolId) (e : SymbolId) :
    ∃ v, dfs g visited e = some v ∧
      (∀ x ∈ visited, x ∈ v) ∧
      (presentIn g e = true → e ∈ v) ∧
      (∀ x ∈ v, x ∈ visited ∨ (presentIn g e = true ∧ Reaches g e x)) ∧
      (DepsClosed g visited → DepsClosed g v) := by
  by_cases hp : presentIn g e = true
  · have hdfs : dfs g visited e = dfsAux g (fuelBound g visited) visited [e] := by
      unfold dfs
      rw [if_pos hp]
    rw [hdfs]
    have hsome := dfsAux_some g (fuelBound g visited) visited [e]
      (fun x hx => by
        rcases List.mem_cons.mp hx with hx | hx
        · exact hx ▸ present_mem_universe hp
        · simp at hx)
      (by unfold fuelBound; simp)
    obtain ⟨v, hv⟩ := Option.isSome_iff_exists.mp hsome
    obtain ⟨h1, h2⟩ := dfsAux_grow g _ _ _ _ hv
    refine ⟨v, hv, h1, fun _ => h2 e (List.mem_cons_self _ _), fun x hx => ?_, fun hcl => ?_⟩
    · rcases dfsAux_sound g _ _ _ _ hv x hx with h' | ⟨s, hs, hr⟩
      · exact Or.inl h'
      · rcases List.mem_cons.mp hs with hs | hs
        · exact Or.inr ⟨hp, hs ▸ hr⟩
        · simp at hs
    · exact dfsAux_closed g _ _ _ _ hv
        (fun m hm d hd => Or.inl (hcl m hm d hd))
  · have hdfs : dfs g visited e = some visited := by
      unfold dfs
      rw [if_neg hp]
    rw [hdfs]
    exact ⟨visited, rfl, fun x hx => hx, fun h => absurd h hp,
      fun x hx => Or.inl hx, fun hcl => hcl⟩

/-- Full specification of the entry-point loop of `analyze`. -/
theorem foldlM_dfs_spec (g : SymbolGraph) :
    ∀ (seeds : List SymbolId) (visited : List SymbolId),
      ∃ out, seeds.foldlM (fun w e => dfs g w e) visited = some out ∧
        (∀ x ∈ visited, x ∈ out) ∧
        (∀ s ∈ seeds, presentIn g s = true → s ∈ out) ∧
        (∀ x ∈ out, x ∈ visited ∨ ∃ s ∈ seeds, presentIn g s = true ∧ Reaches g s x) ∧
        (DepsClosed g visited → DepsClosed g out) := by
  intro seeds
  induction seeds with
  | nil =>
    intro visited
    exact ⟨visited, rfl, fun x hx => hx, by simp, fun x hx => Or.inl hx, fun h => h⟩
  | cons e t ih =>
    intro visited
    obtain ⟨v, hv, hgrow, hmem, hsound, hclosed⟩ := dfs_spec g visited e
    obtain ⟨out, hout, hgrow', hmem', hsound', hclosed'⟩ := ih v
    refine ⟨out, ?_, fun x hx => hgrow' x (hgrow x hx), ?_, ?_, fun h => hclosed' (hclosed h)⟩
    · rw [List.foldlM_cons, hv]
      exact hout
    · intro s hs hp
      rcases List.mem_cons.mp hs with hs | hs
      · exact hgrow' s (hs ▸ hmem (hs ▸ hp))
      · exact hmem' s hs hp
    · intro x hx
      rcases hsound' x hx with h' | ⟨s, hs, hp, hr⟩
      · rcases hsound x h' with h'' | ⟨hp, hr⟩
        · exact Or.inl h''
        · exact Or.inr ⟨e, (List.mem_cons_self _ _), hp, hr⟩
      · exact Or.inr ⟨s, List.mem_cons_of_mem _ hs, hp, hr⟩

/-- The visited set computed by the loop is exactly the set of ids lying at
the end of an `imports` path from a seed that is a key of `symbols`. -/
theorem runDfs_spec (g : SymbolGraph) (seeds : List SymbolId) :
    ∃ out, runDfs g seeds = some out ∧
      ∀ x, x ∈ out ↔ ∃ s ∈ seeds, presentIn g s = true ∧ Reaches g s x := by
  obtain ⟨out, hout, _, hseed, hsound, hclosed⟩ := foldlM_dfs_spec g seeds []
  refine ⟨out, hout, fun x => ⟨fun hx => ?_, fun ⟨s, hs, hp, hr⟩ => ?_⟩⟩
  · rcases hsound x hx with h | h
    · simp at h
    · exact h
  · exact mem_of_reaches g (hclosed (by intro n hn; simp at hn)) (hseed s hs hp) hr

/-! ### Claim C1 -/

/-- The `create_symbol` helper of the repository's reachability tests. -/
def create_symbol (id name path : String) : Symbol :=
  { id := id, name := name, kind := .Function, path := path,
    line_start := 1, line_end := 5, is_exported := false, is_test := false }

/-- Concrete witness graph: `A -> B -> C -> A` (a cycle) and isolated `D`. -/
def gC1 : SymbolGraph :=
  { symbols := [("A", create_symbol "A" "funcA" "a.ts"),
                ("B", create_symbol "B" "funcB" "b.ts"),
                ("C", create_symbol "C" "funcC" "c.ts"),
                ("D", create_symbol "D" "funcD" "d.ts")]
    imports := [("A", ["B"]), ("B", ["C"]), ("C", ["A"])]
    exports := [] }

/-- **C1.** For every symbol graph and every non-empty seed list,
`ReachabilityAnalyzer::analyze` succeeds — the worklist loop terminates on
every finite graph, cyclic `imports` included (`some out` rather than the
fuel-exhaustion `none`) — and a symbol id that is a key of the graph's
`symbols` map is in the returned set iff a path of `imports` edges leads to
it from some seed that is itself a key of `symbols`; seeds absent from the
graph are silently ignored: the result has the same members as the run over
the seed list filtered to the present seeds. -/
theorem C1_analyze_reachability (g : SymbolGraph) (seeds : List SymbolId)
    (hne : seeds ≠ []) :
    ∃ out, analyze g seeds = .ok (some out) ∧
      (∀ id, presentIn g id = true →
        (id ∈ out ↔ ∃ s ∈ seeds, presentIn g s = true ∧ Reaches g s id)) ∧
      (∃ out2, runDfs g (seeds.filter (presentIn g)) = some out2 ∧
        ∀ id, id ∈ out ↔ id ∈ out2) := by
  obtain ⟨out, hout, hiff⟩ := runDfs_spec g seeds
  obtain ⟨out2, hout2, hiff2⟩ := runDfs_spec g (seeds.filter (presentIn g))
  refine ⟨out, ?_, fun id _ => hiff id, out2, hout2, fun id => ?_⟩
  · unfold analyze
    rw [if_neg (fun hcontra => hne (List.isEmpty_iff.mp hcontra)), hout]
  · rw [hiff id, hiff2 id]
    constructor
    · rintro ⟨s, hs, hp, hr⟩
      exact ⟨s, List.mem_filter.mpr ⟨hs, hp⟩, hp, hr⟩
    · rintro ⟨s, hs, hp, hr⟩
      exact ⟨s, (List.mem_filter.mp hs).1, hp, hr⟩

/-- Witness for C1 at a concrete cyclic graph, with one seed (`"A"`) present
and one (`"Zed"`) absent. -/
theorem C1_analyze_reachability_witness :
    ((["A", "Zed"] : List SymbolId) ≠ []) ∧
    (∃ out, analyze gC1 ["A", "Zed"] = .ok (some out) ∧
      (∀ id, presentIn gC1 id = true →
        (id ∈ out ↔ ∃ s ∈ (["A", "Zed"] : List SymbolId),
          presentIn gC1 s = true ∧ Reaches gC1 s id)) ∧
      (∃ out2, runDfs gC1 ((["A", "Zed"] : List SymbolId).filter (presentIn gC1)) = some out2 ∧
        ∀ id, id ∈ out ↔ id ∈ out2)) :=
  ⟨by simp, C1_analyze_reachability gC1 ["A", "Zed"] (by simp)⟩

/-! ## Confidence scoring (`confidence.rs`) -/

/-- `DYNAMIC_IMPORT_PATTERNS`. -/
def DYNAMIC_IMPORT_PATTERNS : List String :=
  ["_handler", "_plugin", "_loader", "_middleware", "_hook",
   "handler_", "plugin_", "loader_", "middleware_", "hook_"]

/-- `could_be_dynamic_import` (lines 213–225): lowercase the name, then for
each pattern use a suffix test when the pattern starts with an underscore, a
prefix test when it ends with one, and substring containment otherwise. -/
def could_be_dynamic_import (name : String) : Bool :=
  let name_lower := rustToLower name
  DYNAMIC_IMPORT_PATTERNS.any (fun pattern =>
    if rustStartsWith pattern "_" then rustEndsWith name_lower pattern
    else if rustEndsWith pattern "_" then rustStartsWith name_lower pattern
    else rustContains name_lower pattern)

/-- `has_test_coverage` (lines 237–278): a symbol is plausibly tested when
some test-file symbol's name contains its name, or some symbol exported by a
test file lists the symbol's id among its imports. -/
def has_test_coverage (symbol : Symbol) (g : SymbolGraph) : Bool :=
  let test_symbols := (g.symbols.map Prod.snd).filter (fun s => s.is_test)
  if test_symbols.isEmpty then false
  else if test_symbols.any (fun t => rustContains t.name symbol.name) then true
  else (test_symbols.map (fun s => s.path)).any (fun test_path =>
    match g.exports.lookup test_path with
    | some ids => ids.any (fun tid =>
        match g.imports.lookup tid with
        | some deps => deps.contains symbol.id
        | none => false)
    | none => false)

/-- `ConfidenceCalculator::calculate` (lines 59–84). The `recently_modified`
probe reads the file system mtime or git history against the current clock;
it is passed in as the boolean oracle `recent`. The Rust `i16` score is an
`Int` (the score stays within `[10, 100]`, far from any `i16` boundary), and
the final `score.max(0).min(100) as u8` is the `Int` clamp. -/
def calculate (g : SymbolGraph) (recent : Bool) (symbol : Symbol) : Int :=
  let score : Int := 100
  let score := if symbol.is_exported then score - 30 else score
  let score := if recent then score - 20 else score
  let score := if could_be_dynamic_import symbol.name then score - 25 else score
  let score := if has_test_coverage symbol g then score - 15 else score
  min (max score 0) 100

/-! ### Claims C2 and C8 -/

/-- The empty symbol graph. -/
def gEmpty : SymbolGraph := { symbols := [], imports := [], exports := [] }

/-- Witness symbol for C2: exported `session_handler`. -/
def symC2 : Symbol :=
  { id := "s.ts:1:session_handler", name := "session_handler", kind := .Function,
    path := "s.ts", line_start := 1, line_end := 3, is_exported := true, is_test := false }

/-- **C2.** `calculate` returns exactly
`max(0, min(100, 100 − 30·[exported] − 20·[recent] − 25·[dynamic name]
− 15·[tested]))`, hence always lies in `[0,100]`; and an exported, untested,
not-recently-modified symbol named `session_handler` scores 45. -/
theorem C2_confidence_formula :
    (∀ (g : SymbolGraph) (recent : Bool) (symbol : Symbol),
      calculate g recent symbol =
        max 0 (min 100 (100 - 30 * (if symbol.is_exported then (1 : Int) else 0)
          - 20 * (if recent then (1 : Int) else 0)
          - 25 * (if could_be_dynamic_import symbol.name then (1 : Int) else 0)
          - 15 * (if has_test_coverage symbol g then (1 : Int) else 0))) ∧
      0 ≤ calculate g recent symbol ∧ calculate g recent symbol ≤ 100) ∧
    (∀ (g : SymbolGraph) (symbol : Symbol),
      symbol.name = "session_handler" → symbol.is_exported = true →
      has_test_coverage symbol g = false →
      calculate g false symbol = 45) := by
  constructor
  · intro g recent symbol
    unfold calculate
    cases hb : symbol.is_exported <;> cases recent <;>
      cases hd : could_be_dynamic_import symbol.name <;>
      cases ht : has_test_coverage symbol g <;>
      simp [hb, hd, ht]
  · intro g symbol hname hexp ht
    have hd : could_be_dynamic_import "session_handler" = true := by decide
    unfold calculate
    rw [hname, hexp, ht, hd]
    norm_num

/-- Witness for C2's scenario clause: the exported `session_handler` in the
empty graph (no tests, not recently modified) scores 45. -/
theorem C2_confidence_formula_witness :
    (symC2.name = "session_handler" ∧ symC2.is_exported = true ∧
      has_test_coverage symC2 gEmpty = false) ∧
    calculate gEmpty false symC2 = 45 :=
  ⟨⟨rfl, rfl, by decide⟩, C2_confidence_formula.2 gEmpty symC2 rfl rfl (by decide)⟩

/-- Witness symbol for C8: unexported `registerPlugin_foo`. -/
def symC8 : Symbol :=
  { id := "p.ts:1:registerPlugin_foo", name := "registerPlugin_foo", kind := .Function,
    path := "p.ts", line_start := 1, line_end := 3, is_exported := false, is_test := false }

/-- **C8 counterexample.** `registerPlugin_foo` (lowercased
`registerplugin_foo`) neither ends with `_plugin` nor starts with `plugin_`,
so `could_be_dynamic_import` rejects it and the scorer returns 100 — not the
claimed 75 — for the unreached, unexported, untested, not-recently-modified
function of that name. -/
theorem C8_counterexample :
    could_be_dynamic_import "registerPlugin_foo" = false ∧
    calculate gEmpty false symC8 = 100 ∧ calculate gEmpty false symC8 ≠ 75 := by
  refine ⟨by decide, by decide, by decide⟩

/-- **C8 amended.** For an unexported, untested, not-recently-modified
function named `registerPlugin_foo` the scorer applies no penalty at all —
the dynamic-name patterns are matched only as suffix `*_stem` or prefix
`stem_*`, and `plugin` occurs in this name only as an inner substring — so
the confidence is 100. -/
theorem C8_amended (g : SymbolGraph) (symbol : Symbol)
    (hname : symbol.name = "registerPlugin_foo")
    (hexp : symbol.is_exported = false)
    (ht : has_test_coverage symbol g = false) :
    calculate g false symbol = 100 := by
  have hd : could_be_dynamic_import "registerPlugin_foo" = false := by decide
  unfold calculate
  rw [hname, hexp, ht, hd]
  norm_num

/-- Witness for C8's amended claim at the concrete symbol. -/
theorem C8_amended_witness :
    (symC8.name = "registerPlugin_foo" ∧ symC8.is_exported = false ∧
      has_test_coverage symC8 gEmpty = false) ∧
    calculate gEmpty false symC8 = 100 :=
  ⟨⟨rfl, rfl, by decide⟩, C8_amended gEmpty symC8 rfl rfl (by decide)⟩

/-! ## Entry-point detection (`entry_points.rs`) -/

/-- Rust `Path::file_name` on the string model: the part after the last
slash. Paths in this development always end in a plain file name, so the
`None` cases are empty paths and final `.`/`..` components. -/
def fileName? (p : String) : Option String :=
  let name := (p.data.reverse.takeWhile (fun c => c ≠ '/')).reverse
  if name.isEmpty ∨ name = ['.'] ∨ name = ['.', '.'] then none
  else some ⟨name⟩

/-- `entry_points.rs::is_test_file` (lines 90–96). It inspects only the
file NAME for `.test.` / `.spec.` — unlike the extractors' predicate. -/
def ep_is_test_file (p : String) : Bool :=
  match fileName? p with
  | some file_name => rustContains file_name ".test." || rustContains file_name ".spec."
  | none => false

/-- `entry_points.rs::is_entry_file` (lines 111–128). -/
def is_entry_file (p : String) : Bool :=
  match fileName? p with
  | some file_name =>
      (["main.ts", "main.tsx", "main.js", "main.jsx",
        "index.ts", "index.tsx", "index.js", "index.jsx", "lib.rs"] : List String).contains
        file_name
  | none => false

/-- `entry_points.rs::is_entry_point` (lines 60–77). -/
def is_entry_point (symbol : Symbol) (path : String) : Bool :=
  if symbol.name = "main" then true
  else if ep_is_test_file path then true
  else if symbol.is_exported && is_entry_file path then true
  else false

/-- `detect_entry_points` (lines 28–50): all symbols satisfying
`is_entry_point`, then every id exported from an entry file, deduplicated
against the accumulated list. -/
def detect_entry_points (g : SymbolGraph) : List SymbolId :=
  let entry_points := (g.symbols.filter (fun p => is_entry_point p.2 p.2.path)).map Prod.fst
  g.exports.foldl (fun acc q =>
    if is_entry_file q.1 then
      q.2.foldl (fun acc2 id => if id ∈ acc2 then acc2 else acc2 ++ [id]) acc
    else acc) entry_points

/-- `symbol_graph/extractors.rs::is_test_file` (lines 85–94): the predicate
used during symbol extraction, matching on the WHOLE path. -/
def extractors_is_test_file (p : String) : Bool :=
  rustContains p ".test." || rustContains p ".spec." || rustContains p "__tests__" ||
  rustContains p "/test/" || rustContains p "/tests/" ||
  rustStartsWith p "test/" || rustStartsWith p "tests/"

/-! ### Claim C3 -/

/-- The entry predicate as claim C3 words it — with the EXTRACTORS test-file
predicate. Stated from the spec's words only, for comparison against
`is_entry_point`. -/
def spec_is_entry_point (symbol : Symbol) : Bool :=
  (symbol.name == "main") || extractors_is_test_file symbol.path ||
  (symbol.is_exported && is_entry_file symbol.path)

/-- Counterexample symbol for C3: an unexported non-`main` symbol inside a
`__tests__` directory whose basename contains neither `.test.` nor `.spec.`. -/
def symC3 : Symbol :=
  { id := "__tests__/helper.ts:1:helper", name := "helper", kind := .Function,
    path := "__tests__/helper.ts", line_start := 1, line_end := 3,
    is_exported := false, is_test := true }

/-- Counterexample graph for C3. -/
def gC3 : SymbolGraph :=
  { symbols := [(symC3.id, symC3)], imports := [], exports := [] }

/-- **C3 counterexample.** The claim's predicate (the extractors' test-file
match) accepts `__tests__/helper.ts`, yet `detect_entry_points` seeds
nothing: entry seeding checks only the basename for `.test.` / `.spec.`. -/
theorem C3_counterexample :
    spec_is_entry_point symC3 = true ∧ detect_entry_points gC3 = [] := by
  exact ⟨by decide, by decide⟩

theorem mem_dedup_foldl (l : List SymbolId) :
    ∀ (acc : List SymbolId) (id : SymbolId),
      id ∈ l.foldl (fun acc2 x => if x ∈ acc2 then acc2 else acc2 ++ [x]) acc ↔
        id ∈ acc ∨ id ∈ l := by
  induction l with
  | nil => intro acc id; simp
  | cons x t ih =>
    intro acc id
    rw [List.foldl_cons]
    by_cases hx : x ∈ acc
    · rw [if_pos hx, ih]
      constructor
      · rintro (h | h)
        · exact Or.inl h
        · exact Or.inr (List.mem_cons_of_mem _ h)
      · rintro (h | h)
        · exact Or.inl h
        · rcases List.mem_cons.mp h with h | h
          · exact Or.inl (h ▸ hx)
          · exact Or.inr h
    · rw [if_neg hx, ih]
      simp only [List.mem_append, List.mem_singleton, List.mem_cons]
      tauto

theorem mem_exports_foldl (l : List (String × List SymbolId)) :
    ∀ (acc : List SymbolId) (id : SymbolId),
      id ∈ l.foldl (fun acc q =>
          if is_entry_file q.1 then
            q.2.foldl (fun acc2 x => if x ∈ acc2 then acc2 else acc2 ++ [x]) acc
          else acc) acc ↔
        id ∈ acc ∨ ∃ q ∈ l, is_entry_file q.1 = true ∧ id ∈ q.2 := by
  induction l with
  | nil => intro acc id; simp
  | cons q t ih =>
    intro acc id
    rw [List.foldl_cons]
    by_cases hq : is_entry_file q.1 = true
    · rw [if_pos hq, ih, mem_dedup_foldl]
      constructor
      · rintro ((h | h) | ⟨r, hr, her, hid⟩)
        · exact Or.inl h
        · exact Or.inr ⟨q, List.mem_cons_self _ _, hq, h⟩
        · exact Or.inr ⟨r, List.mem_cons_of_mem _ hr, her, hid⟩
      · rintro (h | ⟨r, hr, her, hid⟩)
        · exact Or.inl (Or.inl h)
        · rcases List.mem_cons.mp hr with hr | hr
          · exact Or.inl (Or.inr (hr ▸ hid))
          · exact Or.inr ⟨r, hr, her, hid⟩
    · rw [if_neg hq, ih]
      constructor
      · rintro (h | ⟨r, hr, her, hid⟩)
        · exact Or.inl h
        · exact Or.inr ⟨r, List.mem_cons_of_mem _ hr, her, hid⟩
      · rintro (h | ⟨r, hr, her, hid⟩)
        · exact Or.inl h
        · rcases List.mem_cons.mp hr with hr | hr
          · exact absurd (hr ▸ her) hq
          · exact Or.inr ⟨r, hr, her, hid⟩

theorem is_entry_point_iff (s : Symbol) (path : String) :
    is_entry_point s path = true ↔
      (s.name = "main" ∨ ep_is_test_file path = true ∨
        (s.is_exported = true ∧ is_entry_file path = true)) := by
  unfold is_entry_point
  by_cases h1 : s.name = "main" <;> by_cases h2 : ep_is_test_file path = true <;>
    by_cases h3 : s.is_exported = true <;> by_cases h4 : is_entry_file path = true <;>
    simp [h1, h2, h3, h4]

/-- **C3 amended.** An id is seeded as an entry point iff some `symbols`
entry under that id names exactly `main`, or lies in a file whose BASENAME
contains `.test.` or `.spec.` (entry seeding uses its own basename-only test
predicate, not the extractors' full-path predicate), or is exported from an
entry file (`{main,index}.{ts,tsx,js,jsx}` or `lib.rs`); additionally every
id listed in `exports` for an entry file is an entry point. -/
theorem C3_amended (g : SymbolGraph) (id : SymbolId) :
    id ∈ detect_entry_points g ↔
      ((∃ p ∈ g.symbols, p.1 = id ∧
          (p.2.name = "main" ∨ ep_is_test_file p.2.path = true ∨
            (p.2.is_exported = true ∧ is_entry_file p.2.path = true))) ∨
        (∃ q ∈ g.exports, is_entry_file q.1 = true ∧ id ∈ q.2)) := by
  unfold detect_entry_points
  rw [mem_exports_foldl]
  have heps : id ∈ (g.symbols.filter (fun p => is_entry_point p.2 p.2.path)).map Prod.fst ↔
      ∃ p ∈ g.symbols, p.1 = id ∧
        (p.2.name = "main" ∨ ep_is_test_file p.2.path = true ∨
          (p.2.is_exported = true ∧ is_entry_file p.2.path = true)) := by
    rw [List.mem_map]
    constructor
    · rintro ⟨p, hp, hid⟩
      have := List.mem_filter.mp hp
      exact ⟨p, this.1, hid, (is_entry_point_iff p.2 p.2.path).mp this.2⟩
    · rintro ⟨p, hp, hid, hcond⟩
      exact ⟨p, List.mem_filter.mpr ⟨hp, (is_entry_point_iff p.2 p.2.path).mpr hcond⟩, hid⟩
  rw [heps]

/-! ## LOC metrics (`code-viz-core/src/metrics.rs`) -/

/-- Tree-sitter `Point` (0-indexed row and column). -/
structure TSPoint where
  row : Nat
  col : Nat
deriving DecidableEq, Repr

/-- Tree-sitter `Range` as used by `calculate_loc` (start/end points). -/
structure TSRange where
  start_point : TSPoint
  end_point : TSPoint
deriving DecidableEq, Repr

/-- `is_in_range` (lines 110–123): half-open on the end row — a character at
or after the end column is outside. -/
def is_in_range (row col : Nat) (range : TSRange) : Bool :=
  if row < range.start_point.row then false
  else if row = range.start_point.row ∧ col < range.start_point.col then false
  else if row > range.end_point.row then false
  else if row = range.end_point.row ∧ col ≥ range.end_point.col then false
  else true

/-- The leading-whitespace peek loop of `contains_code` (lines 59–65). -/
def skipLeadingWs : List (Nat × Char) → List (Nat × Char)
  | [] => []
  | (col, c) :: rest =>
    if rustIsWhitespace c then skipLeadingWs rest else (col, c) :: rest

/-- The scanning loop of `contains_code` (lines 68–105): take the next
position; the first comment range containing it decides — no range means
code was found (note the Rust loop binds the character as `_c` and does NOT
re-check whitespace here), a range ending on this row means skip forward to
its end column, and a range ending on a later row means the rest of the
line is comment. -/
def containsCodeLoop (row : Nat) (comment_ranges : List TSRange) :
    List (Nat × Char) → Bool
  | [] => false
  | (col, _) :: rest =>
    match comment_ranges.find? (fun range => is_in_range row col range) with
    | none => true
    | some range =>
      if range.end_point.row = row then
        containsCodeLoop row comment_ranges
          (rest.dropWhile (fun p => p.1 < range.end_point.col))
      else false
termination_by l => l.length
decreasing_by
  exact Nat.lt_of_le_of_lt (List.IsSuffix.length_le (List.dropWhile_suffix _)) (by simp)

/-- `contains_code` (lines 56–108), on a line given as characters with their
columns (`char_indices`; character positions equal the Rust byte positions
on ASCII input, which tree-sitter columns also use). -/
def contains_code (row : Nat) (line : List Char) (comment_ranges : List TSRange) : Bool :=
  containsCodeLoop row comment_ranges (skipLeadingWs line.enum)

/-- `calculate_loc` (lines 38–54), with the source given directly as its
list of lines (Rust `source.lines()`): count the lines that are not
whitespace-only and on which `contains_code` fires. -/
def calculate_loc (source_lines : List (List Char)) (comment_ranges : List TSRange) : Nat :=
  (source_lines.enum.filter (fun p =>
    (!p.2.all rustIsWhitespace) && contains_code p.1 p.2 comment_ranges)).length

/-! ### Claim C4 -/

/-- The LOC count as documented (spec §4.3 and the comment at
`metrics.rs:46-47`): lines with at least one non-whitespace character lying
outside every comment range. Stated from those words, for comparison with
`calculate_loc`. -/
def spec_loc (source_lines : List (List Char)) (comment_ranges : List TSRange) : Nat :=
  (source_lines.enum.filter (fun p =>
    p.2.enum.any (fun q =>
      (!rustIsWhitespace q.2) &&
        comment_ranges.all (fun range => !is_in_range p.1 q.1 range)))).length

/-- The failing line: a block comment `/* c */` covering columns 0–7,
followed by one trailing space. -/
def locBugLine : List Char := "/* c */ ".data

/-- The comment range reported by tree-sitter for `locBugLine`. -/
def locBugRanges : List TSRange := [⟨⟨0, 0⟩, ⟨0, 7⟩⟩]

/-- **C4 (code bug).** On a one-line file `"/* c */ "` — a comment plus
trailing whitespace, no code — `calculate_loc` reports 1 while the
documented count (at least one non-whitespace character outside every
comment) is 0: after skipping past the comment the scan accepts the
trailing SPACE because the loop binds the character as `_c` and never
re-checks whitespace, contradicting the code's own comment ("any character
that is NOT whitespace and NOT inside a comment"). The claim's bound
`0 ≤ loc ≤ number of physical lines` does hold. -/
theorem C4_loc_divergence :
    calculate_loc [locBugLine] locBugRanges = 1 ∧
    spec_loc [locBugLine] locBugRanges = 0 ∧
    (∀ (src : List (List Char)) (ranges : List TSRange),
      calculate_loc src ranges ≤ src.length) := by
  refine ⟨?_, by decide, fun src ranges => ?_⟩
  · simp [calculate_loc, contains_code, containsCodeLoop, skipLeadingWs, is_in_range,
      locBugLine, locBugRanges, rustIsWhitespace, List.enum]
  · calc (src.enum.filter _).length ≤ src.enum.length := List.length_filter_le _ _
      _ = src.length := List.enum_length

/-! ## Import resolution (`symbol_graph/resolver.rs`) -/

/-- The predicate of `trim_matches(|c| c == double-quote or single-quote)`. -/
def isQuoteChar (c : Char) : Bool :=
  c = '"' ∨ c = Char.ofNat 39

/-- Quote stripping (resolver line 18): `trim_matches` removes matching
characters from both ends. -/
def trimQuotes (s : String) : String :=
  ⟨((s.data.dropWhile isQuoteChar).reverse.dropWhile isQuoteChar).reverse⟩

/-- Rust `Path::parent` on the string model: drop the final component and
its separator; `none` for the empty path and the root. -/
def parentPath (p : String) : Option String :=
  if p.data.isEmpty then none
  else if p = "/" then none
  else
    let rev := p.data.reverse.dropWhile (fun c => c ≠ '/')
    let rev2 := rev.dropWhile (fun c => c = '/')
    if rev.isEmpty then some ""
    else if rev2.isEmpty then some "/"
    else some ⟨rev2.reverse⟩

/-- Rust `Path::join`: an absolute right-hand side replaces the base. -/
def joinPath (base rel : String) : String :=
  if rustStartsWith rel "/" then rel
  else if base = "" then rel
  else base ++ "/" ++ rel

/-- Rust `Path::file_name` fragment used by `with_extension`: the characters
after the last slash. -/
def fileNameStr (p : String) : List Char :=
  (p.data.reverse.takeWhile (fun c => c ≠ '/')).reverse

/-- Rust `file_stem`: the file name up to its last `.`, except that a dot in
leading position creates no extension (hidden files). -/
def stemOf (name : List Char) : List Char :=
  let dotIdxs := (name.enum.filter (fun q => q.2 == '.' && decide (0 < q.1))).map Prod.fst
  match dotIdxs.max? with
  | none => name
  | some i => name.take i

/-- Rust `Path::with_extension`: REPLACE the file name's extension (stem
plus `.ext`), rather than appending. -/
def withExtension (p : String) (ext : String) : String :=
  let name := fileNameStr p
  let dir := p.data.take (p.data.length - name.length)
  ⟨dir ++ stemOf name ++ ('.' :: ext.data)⟩

/-- Splitting a path on slashes (structural replacement for `splitOn`). -/
def splitSlashAux : List Char → List Char → List String
  | [], acc => [⟨acc.reverse⟩]
  | c :: rest, acc =>
    if c = '/' then ⟨acc.reverse⟩ :: splitSlashAux rest []
    else splitSlashAux rest (c :: acc)

/-- Rust `Path::components`, normalized: empty components (doubled or
trailing slashes) and non-leading `.` components are dropped. The resolver's
joins introduce only non-leading `.` components, so the leading-`.` corner
of Rust's `components` never arises here. -/
def pathComponents (p : String) : List String :=
  (splitSlashAux p.data []).filter (fun c => c ≠ "" ∧ c ≠ ".")

/-- `PathBuf` equality (`Eq`/`Hash` go through `components`). -/
def pathEq (a b : String) : Bool :=
  (rustStartsWith a "/" == rustStartsWith b "/") && (pathComponents a == pathComponents b)

/-- `available_files.contains_key(&candidate)` — the `HashMap<PathBuf, bool>`
keyed by path value. -/
def availableContains (available_files : List String) (p : String) : Bool :=
  available_files.any (fun f => pathEq f p)

/-- The skip test of resolver lines 21–27: the import must start with `.`,
`/`, `@/` or `~/`. -/
def importPrefixOk (s : String) : Bool :=
  rustStartsWith s "." || rustStartsWith s "/" ||
  rustStartsWith s "@/" || rustStartsWith s "~/"

/-- Resolver lines 33–45: strip a path-alias prefix (`@/`, `~/` lose their
first two bytes), then join `./`/`../` imports onto the importer's
directory; other paths stand alone. -/
def basePathOf (importer_dir import_source : String) : String :=
  let import_path_str :=
    if rustStartsWith import_source "@/" || rustStartsWith import_source "~/" then
      (⟨import_source.data.drop 2⟩ : String)
    else import_source
  if rustStartsWith import_path_str "./" || rustStartsWith import_path_str "../" then
    joinPath importer_dir import_path_str
  else import_path_str

/-- `resolve_import_path` (resolver lines 12–71): strip quotes, skip
bare-module imports, compute the base path, then try the extensions
`["", ".ts", ".tsx", ".js", ".jsx"]` — the empty one meaning the literal
path, the others applied through `with_extension` — and finally the four
`index.*` files inside the path; the first candidate present in the
discovered-file set wins, and a miss is `none`, never an error. -/
def resolve_import_path (importer_path import_source : String)
    (available_files : List String) : Option String :=
  let import_source := trimQuotes import_source
  if !importPrefixOk import_source then none
  else
    match parentPath importer_path with
    | none => none
    | some importer_dir =>
      let base_path := basePathOf importer_dir import_source
      match (["", ".ts", ".tsx", ".js", ".jsx"] : List String).findSome? (fun ext =>
          let candidate :=
            if ext = "" then base_path else withExtension base_path ⟨ext.data.drop 1⟩
          if availableContains available_files candidate then some candidate else none) with
      | some c => some c
      | none =>
        ([".ts", ".tsx", ".js", ".jsx"] : List String).findSome? (fun ext =>
          let index_path := joinPath base_path ("index" ++ ext)
          if availableContains available_files index_path then some index_path else none)

/-! ### Claim C5 -/

/-- The candidate list as claim C5 words it: the literal path, then each of
`.ts/.tsx/.js/.jsx` APPENDED as an extension, then the `index.*` files.
Stated from the spec's words, for comparison with the code's candidates. -/
def specAppendCandidates (base_path : String) : List String :=
  [base_path,
   base_path ++ ".ts", base_path ++ ".tsx", base_path ++ ".js", base_path ++ ".jsx",
   joinPath base_path "index.ts", joinPath base_path "index.tsx",
   joinPath base_path "index.js", joinPath base_path "index.jsx"]

/-- **C5 counterexample.** Importing `"./styles.mod"` from `src/a.ts` with
only `src/styles.ts` discovered: none of the claim's candidates (literal or
APPENDED — `src/./styles.mod.ts` etc.) is present, so under the claim
nothing would be returned — but the code resolves to `src/styles.ts`
(candidate path `src/./styles.ts`) because `with_extension` REPLACES the
existing `.mod` suffix. -/
theorem C5_counterexample :
    resolve_import_path "src/a.ts" "\"./styles.mod\"" ["src/styles.ts"] =
      some "src/./styles.ts" ∧
    (specAppendCandidates (joinPath "src" "./styles.mod")).all
      (fun c => !availableContains ["src/styles.ts"] c) = true :=
  ⟨by decide, by decide⟩

/-- The candidate list the code actually tries, in order. -/
def codeCandidates (base_path : String) : List String :=
  [base_path, withExtension base_path "ts", withExtension base_path "tsx",
   withExtension base_path "js", withExtension base_path "jsx",
   joinPath base_path "index.ts", joinPath base_path "index.tsx",
   joinPath base_path "index.js", joinPath base_path "index.jsx"]

theorem findSome?_guard_eq_find?_map {α β : Type} (l : List α) (f : α → β) (pred : β → Bool) :
    (l.findSome? (fun x => if pred (f x) then some (f x) else none)) =
      (l.map f).find? pred := by
  induction l with
  | nil => rfl
  | cons x t ih =>
    rw [List.map_cons, List.findSome?_cons, List.find?_cons]
    by_cases hp : pred (f x) <;> simp [hp, ih]

theorem find?_append_cases {α : Type} (l₁ l₂ : List α) (p : α → Bool) :
    ((l₁ ++ l₂).find? p) = (match l₁.find? p with
      | some x => some x
      | none => l₂.find? p) := by
  induction l₁ with
  | nil => simp
  | cons x t ih =>
    by_cases hp : p x <;> simp [List.find?_cons, hp, ih]

/-- **C5 amended.** Resolution skips (returns nothing for) exactly the
quoted import strings that, stripped, start with none of `.`, `/`,
`@/`, `~/`; for the remaining strings (when the importer path has a parent)
it returns the first of [the literal path; each of `.ts/.tsx/.js/.jsx` SET
as the extension via `with_extension`, replacing an existing extension of
the final component rather than being appended; each as an `index.*` file
inside the path] present in the discovered-file set, and nothing (never an
error) when none is present. -/
theorem C5_amended (importer_path import_source : String)
    (available_files : List String) :
    resolve_import_path importer_path import_source available_files =
      (if importPrefixOk (trimQuotes import_source) then
        (parentPath importer_path).bind (fun importer_dir =>
          (codeCandidates (basePathOf importer_dir (trimQuotes import_source))).find?
            (availableContains available_files))
       else none) := by
  simp only [resolve_import_path]
  by_cases hpre : importPrefixOk (trimQuotes import_source)
  · rw [hpre]
    simp only [Bool.not_true, Bool.false_eq_true, if_false, if_pos rfl]
    cases hpar : parentPath importer_path with
    | none => simp
    | some d =>
      simp only [Option.some_bind]
      rw [findSome?_guard_eq_find?_map _
        (fun ext => if ext = "" then basePathOf d (trimQuotes import_source)
          else withExtension (basePathOf d (trimQuotes import_source)) ⟨ext.data.drop 1⟩)]
      rw [findSome?_guard_eq_find?_map _
        (fun ext => joinPath (basePathOf d (trimQuotes import_source)) ("index" ++ ext))]
      rw [if_pos trivial]
      rw [show ∀ base, codeCandidates base =
        ((["", ".ts", ".tsx", ".js", ".jsx"] : List String).map
          (fun ext => if ext = "" then base else withExtension base ⟨ext.data.drop 1⟩)) ++
        (([".ts", ".tsx", ".js", ".jsx"] : List String).map
          (fun ext => joinPath base ("index" ++ ext))) from fun _ => rfl]
      rw [find?_append_cases]
      cases List.find? (availableContains available_files)
        (List.map (fun ext => if ext = "" then basePathOf d (trimQuotes import_source)
          else withExtension (basePathOf d (trimQuotes import_source)) ⟨ext.data.drop 1⟩)
          ["", ".ts", ".tsx", ".js", ".jsx"]) <;> rfl
  · rw [Bool.not_eq_true] at hpre
    rw [hpre]
    simp

/-! ## Symbol-graph cache (`cache.rs`) -/

/-- `CachedSymbolGraph` (minus the wall-clock `timestamp` field, which
nothing reads back). -/
structure CachedSymbolGraph where
  version : Nat
  graph : SymbolGraph
  file_hashes : List (String × Nat)
deriving DecidableEq, Repr

/-- `CACHE_VERSION`. -/
def CACHE_VERSION : Nat := 1

/-- The sled store under its single `symbol_graph` key; `bincode`
serialization round-trips exactly, so the stored bytes are modelled by the
value itself and an absent (or corrupted-and-cleared) key by `none`. -/
abbrev CacheDb := Option CachedSymbolGraph

/-- The file system as seen through `fs::metadata(..).modified()`: mtime
seconds per readable path; `none` models a metadata error / missing file. -/
abbrev FileSys := List (String × Nat)

/-- The hash manifest built by `save` (lines 104–117): one mtime-derived
entry per `exports` key whose metadata is readable. -/
def buildFileHashes (fs : FileSys) (exportsList : List (String × List SymbolId)) :
    List (String × Nat) :=
  exportsList.filterMap (fun q => (fs.lookup q.1).map (fun hash => (q.1, hash)))

/-- `SymbolGraphCache::save` (lines 103–141): replace the stored entry with
the graph and its hash manifest. -/
def cacheSave (fs : FileSys) (g : SymbolGraph) (_db : CacheDb) : CacheDb :=
  some { version := CACHE_VERSION, graph := g,
         file_hashes := buildFileHashes fs g.exports }

/-- `SymbolGraphCache::load` (lines 147–181): `none` when absent, and a
version mismatch clears the entry. Returns the updated store and the loaded
graph. -/
def cacheLoad (db : CacheDb) : CacheDb × Option SymbolGraph :=
  match db with
  | none => (none, none)
  | some cached =>
    if cached.version ≠ CACHE_VERSION then (none, none)
    else (some cached, some cached.graph)

/-- The per-file staleness test of `invalidate_if_stale` (lines 216–244): a
file is flagged when its metadata is unreadable or its current mtime hash
differs from (or is absent from) the manifest. -/
def staleFilePred (fs : FileSys) (cached : CachedSymbolGraph) (file : String) : Bool :=
  match fs.lookup file with
  | some current_hash => !(cached.file_hashes.lookup file == some current_hash)
  | none => true

/-- `SymbolGraphCache::invalidate_if_stale` (lines 192–262): stale (and
cleared) when the cache is absent, the version mismatches, some analyzed
file is flagged by `staleFilePred`, or some manifest file is no longer in
the analyzed set. -/
def invalidate_if_stale (fs : FileSys) (db : CacheDb) (files : List String) :
    CacheDb × Bool :=
  match db with
  | none => (none, true)
  | some cached =>
    if cached.version ≠ CACHE_VERSION then (none, true)
    else if files.any (staleFilePred fs cached) then (none, true)
    else if cached.file_hashes.any (fun q => q.1 ∉ files) then (none, true)
    else (some cached, false)

/-- `load_or_build_graph` (`lib.rs` lines 302–331), given the graph `build`
that a fresh build would produce: when not stale and a load succeeds the
cached graph is used (flag `true` = loaded-from-cache path); otherwise the
fresh graph is built and saved (flag `false` = rebuild path). -/
def load_or_build_graph (fs : FileSys) (db : CacheDb) (files : List String)
    (build : SymbolGraph) : CacheDb × SymbolGraph × Bool :=
  let step := invalidate_if_stale fs db files
  if step.2 = false then
    match cacheLoad step.1 with
    | (db2, some g) => (db2, g, true)
    | (db2, none) => (cacheSave fs build db2, build, false)
  else
    (cacheSave fs build step.1, build, false)

/-! ### Claim C6 -/

/-- Counterexample graph for C6: one symbol, no exported symbols, so the
builder's `exports` map is empty. -/
def gC6 : SymbolGraph :=
  { symbols := [("a.ts:1:helper", create_symbol "a.ts:1:helper" "helper" "a.ts")],
    imports := [], exports := [] }

/-- Counterexample file system for C6: `a.ts` exists, mtime 5. -/
def fsC6 : FileSys := [("a.ts", 5)]

/-- **C6 counterexample.** Analyze `["a.ts"]` where `a.ts` exports nothing:
`save` hashes only `exports` keys, so the manifest is empty; the second run
over the SAME unchanged files finds `a.ts` absent from the manifest,
reports the cache stale, and `load_or_build_graph` takes the rebuild path —
not the loaded-from-cache path the claim requires. -/
theorem C6_counterexample :
    (invalidate_if_stale fsC6 (cacheSave fsC6 gC6 none) ["a.ts"]).2 = true ∧
    (load_or_build_graph fsC6 (cacheSave fsC6 gC6 none) ["a.ts"] gC6).2.2 = false :=
  ⟨by decide, by decide⟩

theorem buildFileHashes_lookup (fs : FileSys)
    (l : List (String × List SymbolId)) (f : String) (h : Nat)
    (hf : f ∈ l.map Prod.fst) (hfs : fs.lookup f = some h) :
    (buildFileHashes fs l).lookup f = some h := by
  induction l with
  | nil => simp at hf
  | cons q rest ih =>
    by_cases hq : f = q.1
    · subst hq
      unfold buildFileHashes
      rw [List.filterMap_cons, hfs]
      simp [List.lookup]
    · unfold buildFileHashes
      rw [List.filterMap_cons]
      have hf' : f ∈ rest.map Prod.fst := by
        rcases List.mem_cons.mp hf with h' | h'
        · exact absurd h' hq
        · exact h'
      cases hl : fs.lookup q.1 with
      | none => exact ih hf'
      | some v =>
        simp only [Option.map_some']
        rw [List.lookup]
        rw [beq_eq_false_iff_ne.mpr hq]
        exact ih hf'

theorem buildFileHashes_keys (fs : FileSys)
    (l : List (String × List SymbolId)) (p : String × Nat)
    (hp : p ∈ buildFileHashes fs l) : p.1 ∈ l.map Prod.fst := by
  unfold buildFileHashes at hp
  rw [List.mem_filterMap] at hp
  obtain ⟨a, ha, hpa⟩ := hp
  obtain ⟨v, _, hvb⟩ := Option.map_eq_some'.mp hpa
  rw [← hvb]
  exact List.mem_map_of_mem _ ha

/-- **C6 amended.** Caching is observationally transparent on the runs the
builder can actually cache: when every analyzed file exists on disk and the
analyzed set coincides with the keys of `graph.exports` (the builder
records an `exports` entry only for files with at least one exported
symbol, and `save` hashes only those keys), a second run over unchanged
files finds the cache not stale, takes the loaded-from-cache path and gets
back exactly the saved graph; touching one analyzed file's mtime makes the
next run stale and sends it down the rebuild path. -/
theorem C6_amended (fs : FileSys) (g : SymbolGraph) (files : List String)
    (hmem1 : ∀ f ∈ files, f ∈ g.exports.map Prod.fst)
    (hmem2 : ∀ f ∈ g.exports.map Prod.fst, f ∈ files)
    (hfs : ∀ f ∈ files, (fs.lookup f).isSome) :
    (invalidate_if_stale fs (cacheSave fs g none) files).2 = false ∧
    (∀ build, load_or_build_graph fs (cacheSave fs g none) files build =
      (cacheSave fs g none, g, true)) ∧
    (∀ (fs' : FileSys) (f₀ : String) (t' : Nat), f₀ ∈ files →
      fs'.lookup f₀ = some t' → fs.lookup f₀ ≠ some t' →
      (invalidate_if_stale fs' (cacheSave fs g none) files).2 = true ∧
      ∀ build, (load_or_build_graph fs' (cacheSave fs g none) files build).2.2 = false) := by
  have hvneg : ¬ (CACHE_VERSION ≠ CACHE_VERSION) := fun hc => hc rfl
  have hany1 : files.any (staleFilePred fs
      { version := CACHE_VERSION, graph := g,
        file_hashes := buildFileHashes fs g.exports }) = false := by
    rw [List.any_eq_false]
    intro file hfile
    obtain ⟨h, hh⟩ := Option.isSome_iff_exists.mp (hfs file hfile)
    unfold staleFilePred
    rw [hh]
    have := buildFileHashes_lookup fs g.exports file h (hmem1 file hfile) hh
    simp [this]
  have hany2 : (buildFileHashes fs g.exports).any (fun q => q.1 ∉ files) = false := by
    rw [List.any_eq_false]
    intro q hq
    have : q.1 ∈ files := hmem2 q.1 (buildFileHashes_keys fs g.exports q hq)
    simp [this]
  have hinv : invalidate_if_stale fs (cacheSave fs g none) files =
      (cacheSave fs g none, false) := by
    show (if CACHE_VERSION ≠ CACHE_VERSION then ((none : CacheDb), true)
      else if files.any (staleFilePred fs
          { version := CACHE_VERSION, graph := g,
            file_hashes := buildFileHashes fs g.exports }) then (none, true)
      else if (buildFileHashes fs g.exports).any (fun q => q.1 ∉ files) then (none, true)
      else (cacheSave fs g none, false)) = (cacheSave fs g none, false)
    rw [if_neg hvneg, hany1, hany2]
    simp
  have hload : cacheLoad (cacheSave fs g none) = (cacheSave fs g none, some g) := by
    show (if CACHE_VERSION ≠ CACHE_VERSION then ((none : CacheDb), (none : Option SymbolGraph))
      else (cacheSave fs g none, some g)) = (cacheSave fs g none, some g)
    rw [if_neg hvneg]
  refine ⟨by rw [hinv], fun build => ?_, ?_⟩
  · simp [load_or_build_graph, hinv, hload]
  · intro fs' f₀ t' hf₀ hlk' hne
    have hany : files.any (staleFilePred fs'
        { version := CACHE_VERSION, graph := g,
          file_hashes := buildFileHashes fs g.exports }) = true := by
      rw [List.any_eq_true]
      refine ⟨f₀, hf₀, ?_⟩
      unfold staleFilePred
      rw [hlk']
      obtain ⟨h, hh⟩ := Option.isSome_iff_exists.mp (hfs f₀ hf₀)
      have hlkm := buildFileHashes_lookup fs g.exports f₀ h (hmem1 f₀ hf₀) hh
      have hneq : h ≠ t' := fun hcontra => hne (hcontra ▸ hh)
      simp [hlkm, hneq]
    have hstale : invalidate_if_stale fs' (cacheSave fs g none) files = (none, true) := by
      show (if CACHE_VERSION ≠ CACHE_VERSION then ((none : CacheDb), true)
        else if files.any (staleFilePred fs'
            { version := CACHE_VERSION, graph := g,
              file_hashes := buildFileHashes fs g.exports }) then (none, true)
        else if (buildFileHashes fs g.exports).any (fun q => q.1 ∉ files) then (none, true)
        else (cacheSave fs g none, false)) = ((none : CacheDb), true)
      rw [if_neg hvneg, hany]
      simp
    refine ⟨by rw [hstale], fun build => ?_⟩
    simp [load_or_build_graph, hstale]

/-- Witness graph for C6's amended claim: one exporting file. -/
def gC6w : SymbolGraph :=
  { symbols := [("a.ts:1:f", create_symbol "a.ts:1:f" "f" "a.ts")],
    imports := [], exports := [("a.ts", ["a.ts:1:f"])] }

/-- Witness for C6's amended claim at a concrete run over `["a.ts"]`. -/
theorem C6_amended_witness :
    ((∀ f ∈ (["a.ts"] : List String), f ∈ gC6w.exports.map Prod.fst) ∧
      (∀ f ∈ gC6w.exports.map Prod.fst, f ∈ (["a.ts"] : List String)) ∧
      (∀ f ∈ (["a.ts"] : List String), (fsC6.lookup f).isSome)) ∧
    ((invalidate_if_stale fsC6 (cacheSave fsC6 gC6w none) ["a.ts"]).2 = false ∧
     (∀ build, load_or_build_graph fsC6 (cacheSave fsC6 gC6w none) ["a.ts"] build =
       (cacheSave fsC6 gC6w none, gC6w, true)) ∧
     (∀ (fs' : FileSys) (f₀ : String) (t' : Nat), f₀ ∈ (["a.ts"] : List String) →
       fs'.lookup f₀ = some t' → fsC6.lookup f₀ ≠ some t' →
       (invalidate_if_stale fs' (cacheSave fsC6 gC6w none) ["a.ts"]).2 = true ∧
       ∀ build, (load_or_build_graph fs' (cacheSave fsC6 gC6w none) ["a.ts"] build).2.2 = false)) :=
  ⟨⟨by decide, by decide, by decide⟩,
   C6_amended fsC6 gC6w ["a.ts"] (by decide) (by decide) (by decide)⟩

/-! ## JSON serialization of the core `FileMetrics`
(`code-viz-core/src/models.rs` and `code-viz-cli/src/output/json.rs`) -/

/-- `FileMetrics` of `code-viz-core`: path as string, `SystemTime` as whole
(seconds, nanoseconds) since the Unix epoch, the optional `f64` ratio as a
rational (its decimal rendering is abstracted below). -/
structure FileMetrics where
  path : String
  language : String
  loc : Nat
  size_bytes : Nat
  function_count : Nat
  last_modified : Nat × Nat
  dead_function_count : Option Nat
  dead_code_loc : Option Nat
  dead_code_ratio : Option ℚ

/-- serde's `Serialize` for `std::time::SystemTime`: a JSON OBJECT with
`secs_since_epoch` and `nanos_since_epoch` fields. -/
def serializeSystemTime (t : Nat × Nat) : String :=
  "\x7b\"secs_since_epoch\":" ++ toString t.1 ++
    ",\"nanos_since_epoch\":" ++ toString t.2 ++ "\x7d"

/-- The output of serde_json for the derived `Serialize` of `FileMetrics`
(no `rename_all`, no custom timestamp serializer): snake_case field names in
declaration order, `Option` fields omitted when `None`. Modelled compactly —
`JsonFormatter::format` uses `to_string_pretty`, which only inserts
whitespace between tokens and cannot affect the substring facts below.
String escaping inside `path`/`language` and the decimal rendering
`ratioJson` of the `f64` ratio are abstracted (no value in these claims
exercises them). -/
def serializeFileMetricsWith (ratioJson : ℚ → String) (fm : FileMetrics) : String :=
  ("\x7b\"path\":\"" ++ fm.path ++ "\",\"language\":\"" ++ fm.language ++
    "\",\"loc\":" ++ toString fm.loc ++ ",\"size_bytes\":" ++ toString fm.size_bytes ++
    ",\"function_count\":" ++ toString fm.function_count ++ ",\"last_modified\":") ++
  serializeSystemTime fm.last_modified ++
  ((match fm.dead_function_count with
    | some n => ",\"dead_function_count\":" ++ toString n
    | none => "") ++
   (match fm.dead_code_loc with
    | some n => ",\"dead_code_loc\":" ++ toString n
    | none => "") ++
   (match fm.dead_code_ratio with
    | some q => ",\"dead_code_ratio\":" ++ ratioJson q
    | none => "") ++ "\x7d")

/-! ### Claim C7 -/

theorem rustContains_append_right (a b s : String) (h : rustContains b s = true) :
    rustContains (a ++ b) s = true := by
  unfold rustContains at h ⊢
  rw [List.any_eq_true] at h ⊢
  obtain ⟨t, ht, hpre⟩ := h
  refine ⟨t, ?_, hpre⟩
  rw [List.mem_tails] at ht ⊢
  rw [String.data_append]
  exact ht.trans (List.suffix_append _ _)

theorem rustContains_append_left (a b s : String) (h : rustContains a s = true) :
    rustContains (a ++ b) s = true := by
  unfold rustContains at h ⊢
  rw [List.any_eq_true] at h ⊢
  obtain ⟨t, ht, hpre⟩ := h
  refine ⟨t ++ b.data, ?_, ?_⟩
  · rw [List.mem_tails] at ht ⊢
    rw [String.data_append]
    obtain ⟨u, hu⟩ := ht
    exact ⟨u, by rw [← hu, List.append_assoc]⟩
  · rw [List.isPrefixOf_iff_prefix] at hpre ⊢
    exact hpre.trans (List.prefix_append _ _)

/-- Concrete `FileMetrics` at epoch second 1234567890 for claim C7. -/
def fmC7 : FileMetrics :=
  { path := "src/app.ts", language := "typescript", loc := 10, size_bytes := 120,
    function_count := 2, last_modified := (1234567890, 0),
    dead_function_count := none, dead_code_loc := none, dead_code_ratio := none }

/-- **C7 counterexample.** Serializing the core `FileMetrics` at epoch
second 1234567890 produces no `"lastModified":"2009-02-13T23:31:30.000Z"` —
the derived serializer has no camelCase rename and no timestamp conversion —
and DOES contain the substring `secs_since_epoch`. -/
theorem C7_counterexample :
    rustContains (serializeFileMetricsWith (fun _ => "") fmC7)
      "\"lastModified\":\"2009-02-13T23:31:30.000Z\"" = false ∧
    rustContains (serializeFileMetricsWith (fun _ => "") fmC7) "secs_since_epoch" = true :=
  ⟨by decide, by decide⟩

/-- **C7 amended.** Serializing the core `FileMetrics` through the CLI JSON
formatter emits `last_modified` as a serde `SystemTime` OBJECT: every
serialized value contains the substring `secs_since_epoch`, and the value at
epoch second 1234567890 contains
`"last_modified":{"secs_since_epoch":1234567890` (brace elided here) and the
snake_case field names, but no `lastModified` and no ISO-8601 string — the
ISO `lastModified` strings of the wire format come from the separate
api/tauri DTO types (`TreeNode`), not from `FileMetrics`. -/
theorem C7_amended :
    (∀ (ratioJson : ℚ → String) (fm : FileMetrics),
      rustContains (serializeFileMetricsWith ratioJson fm) "secs_since_epoch" = true) ∧
    (rustContains (serializeFileMetricsWith (fun _ => "") fmC7)
        "\"last_modified\":\x7b\"secs_since_epoch\":1234567890" = true ∧
     rustContains (serializeFileMetricsWith (fun _ => "") fmC7) "lastModified" = false) := by
  refine ⟨fun ratioJson fm => ?_, by decide, by decide⟩
  unfold serializeFileMetricsWith
  apply rustContains_append_left
  apply rustContains_append_right
  unfold serializeSystemTime
  apply rustContains_append_left
  apply rustContains_append_left
  apply rustContains_append_left
  apply rustContains_append_left
  decide

/-! ## The dead-code pipeline (`code-viz-dead-code/src/lib.rs`) -/

/-- `AnalysisError`, restricted to the variants the modelled pipeline can
produce. -/
inductive AnalysisError where
  | ReachabilityError (e : ReachabilityError)
  | NoEntryPoints
deriving DecidableEq, Repr

/-- `DeadSymbol` (`models.rs` lines 186–211). -/
structure DeadSymbol where
  symbol : String
  kind : SymbolKind
  line_start : Nat
  line_end : Nat
  loc : Nat
  confidence : Int
  reason : String
  last_modified : Option (Nat × Nat)
deriving DecidableEq, Repr

/-- `FileDeadCode`. -/
structure FileDeadCode where
  path : String
  dead_code : List DeadSymbol
deriving DecidableEq, Repr

/-- `DeadCodeSummary`; the `f64` ratio is a rational (its floating-point
rounding plays no role in these claims). -/
structure DeadCodeSummary where
  total_files : Nat
  files_with_dead_code : Nat
  dead_functions : Nat
  dead_classes : Nat
  total_dead_loc : Nat
  dead_code_ratio : ℚ
deriving DecidableEq, Repr

/-- `DeadCodeResult`. -/
structure DeadCodeResult where
  summary : DeadCodeSummary
  files : List FileDeadCode
deriving DecidableEq, Repr

/-- `symbol.line_end.saturating_sub(symbol.line_start) + 1` (`lib.rs` line
228); `Nat` subtraction is saturating. -/
def symbolLoc (s : Symbol) : Nat := (s.line_end - s.line_start) + 1

/-- The `match symbol.kind` of `lib.rs` lines 231–239: Function,
ArrowFunction and Method count as dead functions; Class as a dead class;
everything else (Variable) as neither. -/
def isFunctionKind (k : SymbolKind) : Bool :=
  match k with
  | .Function | .ArrowFunction | .Method => true
  | _ => false

/-- The `DeadSymbol` built at `lib.rs` lines 241–250; `recent` is the
per-path "modified in the last 30 days" oracle of the confidence
calculator. -/
def mkDeadSymbol (g : SymbolGraph) (recent : String → Bool) (s : Symbol) : DeadSymbol :=
  { symbol := s.name, kind := s.kind, line_start := s.line_start, line_end := s.line_end,
    loc := symbolLoc s, confidence := calculate g (recent s.path) s,
    reason := "Unreachable from entry points", last_modified := none }

/-- The final `files.sort_by(path)` (`lib.rs` line 264). -/
def sortByPath (l : List FileDeadCode) : List FileDeadCode :=
  l.mergeSort (fun a b => a.path ≤ b.path)

/-- The zero summary returned for an empty scan (`lib.rs` lines 154–167). -/
def emptyDeadCodeResult : DeadCodeResult :=
  { summary :=
      { total_files := 0, files_with_dead_code := 0, dead_functions := 0,
        dead_classes := 0, total_dead_loc := 0, dead_code_ratio := 0 },
    files := [] }

/-- `analyze_dead_code` (`lib.rs` lines 142–298), given the scanned file
list and the symbol graph the builder produces for it (tree-sitter parsing
is outside the embedding, so the built graph is an input; the cache layer
returns an equal graph and is orthogonal to these claims): empty scan →
zero result; no entry points → `NoEntryPoints`; otherwise reachability,
dead-symbol identification, confidence scoring, grouping by file and the
summary. `runDfs_spec` shows the `getD` never takes its default. -/
def analyze_dead_code (files : List String) (graph : SymbolGraph)
    (recent : String → Bool) : Except AnalysisError DeadCodeResult :=
  if files.isEmpty then
    .ok emptyDeadCodeResult
  else
    let entry_points := detect_entry_points graph
    if entry_points.isEmpty then
      .error .NoEntryPoints
    else
      match analyze graph entry_points with
      | .error e => .error (.ReachabilityError e)
      | .ok r =>
        let reachable := r.getD []
        let dead_symbols := identify_dead_code graph reachable
        let scored := dead_symbols.map (fun s => (s.path, mkDeadSymbol graph recent s))
        let dead_functions := dead_symbols.countP (fun s => isFunctionKind s.kind)
        let dead_classes := dead_symbols.countP (fun s => s.kind == SymbolKind.Class)
        let total_dead_loc := (dead_symbols.map symbolLoc).sum
        let deadPaths := (dead_symbols.map (fun s => s.path)).dedup
        let filesOut : List FileDeadCode := deadPaths.map (fun p =>
          { path := p, dead_code := (scored.filter (fun q => q.1 == p)).map Prod.snd })
        let filesSorted := sortByPath filesOut
        let total_loc := (graph.symbols.map (fun q => symbolLoc q.2)).sum
        let ratio : ℚ := if total_loc > 0 then (total_dead_loc : ℚ) / (total_loc : ℚ) else 0
        .ok { summary :=
                { total_files := filesSorted.length,
                  files_with_dead_code := filesSorted.length,
                  dead_functions := dead_functions, dead_classes := dead_classes,
                  total_dead_loc := total_dead_loc, dead_code_ratio := ratio },
              files := filesSorted }

/-! ### Claim C9 -/

/-- **C9 counterexample.** A non-empty file set whose graph has NO symbols:
entry-point detection is empty, and the pipeline DOES surface
`NoEntryPoints` — the code never checks whether the graph had symbols. -/
theorem C9_counterexample :
    analyze_dead_code ["a.ts"] gEmpty (fun _ => false) = .error .NoEntryPoints ∧
    gEmpty.symbols = [] := by
  refine ⟨?_, rfl⟩
  have hdet : detect_entry_points gEmpty = [] := by decide
  simp [analyze_dead_code, hdet]

/-- **C9 amended.** `ReachabilityAnalyzer::analyze` returns `NoEntryPoints`
exactly when the seed list is empty; and the pipeline surfaces
`NoEntryPoints` exactly when the scanned file set is non-empty and
entry-point detection yields an empty set — regardless of whether the
symbol graph contains any symbol. -/
theorem C9_amended :
    (∀ (g : SymbolGraph) (seeds : List SymbolId),
      analyze g seeds = .error .NoEntryPoints ↔ seeds = []) ∧
    (∀ (files : List String) (graph : SymbolGraph) (recent : String → Bool),
      analyze_dead_code files graph recent = .error .NoEntryPoints ↔
        (files ≠ [] ∧ detect_entry_points graph = [])) := by
  constructor
  · intro g seeds
    unfold analyze
    by_cases hs : seeds.isEmpty
    · rw [if_pos hs]
      simp [List.isEmpty_iff.mp hs]
    · rw [if_neg hs]
      constructor
      · intro hcontra
        cases hcontra
      · intro hcontra
        exact absurd (List.isEmpty_iff.mpr hcontra) hs
  · intro files graph recent
    unfold analyze_dead_code
    by_cases hf : files.isEmpty
    · rw [if_pos hf]
      constructor
      · intro hcontra
        cases hcontra
      · rintro ⟨hne, _⟩
        exact absurd (List.isEmpty_iff.mp hf) hne
    · rw [if_neg hf]
      by_cases he : (detect_entry_points graph).isEmpty
      · rw [if_pos he]
        constructor
        · intro _
          exact ⟨fun hcontra => hf (List.isEmpty_iff.mpr hcontra), List.isEmpty_iff.mp he⟩
        · intro _
          rfl
      · simp only [he, if_false]
        have hok : analyze graph (detect_entry_points graph) =
            .ok (runDfs graph (detect_entry_points graph)) := by
          unfold analyze
          rw [if_neg he]
        rw [hok]
        constructor
        · intro hcontra
          cases hcontra
        · rintro ⟨_, hdet⟩
          exact absurd (List.isEmpty_iff.mpr hdet) he

/-! ### Claim C10 -/

/-- **C10.** In every successful `analyze_dead_code` run over a non-empty
file set, `summary.total_files` equals `summary.files_with_dead_code`, both
equal the number of grouped per-file entries — the number of distinct paths
among the DEAD symbols, not the number of files analyzed — and the
function/class tallies count exactly the Function/ArrowFunction/Method and
Class kinds respectively, so a dead `Variable` is counted in neither. -/
theorem C10_summary_invariants (files : List String) (graph : SymbolGraph)
    (recent : String → Bool) (result : DeadCodeResult)
    (hne : files ≠ [])
    (h : analyze_dead_code files graph recent = .ok result) :
    result.summary.total_files = result.summary.files_with_dead_code ∧
    result.summary.files_with_dead_code = result.files.length ∧
    (∃ reachable, runDfs graph (detect_entry_points graph) = some reachable ∧
      result.summary.files_with_dead_code =
        ((identify_dead_code graph reachable).map (fun s => s.path)).dedup.length ∧
      result.summary.dead_functions =
        (identify_dead_code graph reachable).countP (fun s => isFunctionKind s.kind) ∧
      result.summary.dead_classes =
        (identify_dead_code graph reachable).countP (fun s => s.kind == SymbolKind.Class)) ∧
    isFunctionKind SymbolKind.Variable = false ∧
    (SymbolKind.Variable == SymbolKind.Class) = false := by
  obtain ⟨out, hout, _⟩ := runDfs_spec graph (detect_entry_points graph)
  unfold analyze_dead_code at h
  rw [if_neg (fun hcontra => hne (List.isEmpty_iff.mp hcontra))] at h
  by_cases he : (detect_entry_points graph).isEmpty
  · rw [if_pos he] at h
    cases h
  · rw [if_neg he] at h
    have hok : analyze graph (detect_entry_points graph) =
        .ok (runDfs graph (detect_entry_points graph)) := by
      unfold analyze
      rw [if_neg he]
    rw [hok, hout] at h
    simp only [Except.ok.injEq] at h
    subst h
    refine ⟨rfl, rfl, ⟨out, hout, ?_, rfl, rfl⟩, rfl, rfl⟩
    show (sortByPath _).length = _
    rw [sortByPath, List.length_mergeSort, List.length_map]
    simp only [Option.getD_some]

/-- Witness for C10 at a concrete run: graph `A -> B -> C -> A` with
isolated `D`, one entry file exporting `A`. -/
def gC10 : SymbolGraph :=
  { symbols := [("A", create_symbol "A" "main" "src/app.ts"),
                ("B", create_symbol "B" "funcB" "b.ts"),
                ("C", create_symbol "C" "funcC" "c.ts"),
                ("D", create_symbol "D" "funcD" "d.ts")],
    imports := [("A", ["B"]), ("B", ["C"]), ("C", ["A"])],
    exports := [] }

theorem C10_summary_invariants_witness :
    ((["src/app.ts", "b.ts", "c.ts", "d.ts"] : List String) ≠ []) ∧
    (∃ result, analyze_dead_code ["src/app.ts", "b.ts", "c.ts", "d.ts"] gC10
        (fun _ => false) = .ok result ∧
      result.summary.total_files = result.summary.files_with_dead_code ∧
      result.summary.files_with_dead_code = result.files.length) := by
  have hne : (["src/app.ts", "b.ts", "c.ts", "d.ts"] : List String) ≠ [] := by simp
  refine ⟨hne, ?_⟩
  obtain ⟨result, hres⟩ : ∃ r, analyze_dead_code ["src/app.ts", "b.ts", "c.ts", "d.ts"] gC10
      (fun _ => false) = .ok r := by
    have hok : analyze gC10 (detect_entry_points gC10) =
        .ok (runDfs gC10 (detect_entry_points gC10)) := by
      unfold analyze
      rw [if_neg (by decide)]
    simp only [analyze_dead_code]
    rw [if_neg (by decide), if_neg (by decide), hok]
    exact ⟨_, rfl⟩
  have hconc := C10_summary_invariants ["src/app.ts", "b.ts", "c.ts", "d.ts"] gC10
    (fun _ => false) result hne hres
  exact ⟨result, hres, hconc.1, hconc.2.1⟩

end CodeViz
